/-
Verification of the ray/triangle intersection core
(`trimesh/ray/ray_triangle_cpu.py`).

The source operates on numpy float arrays.  We embed it shallowly:

* Scalars are modelled twice, through a bundle `Ops α` of the arithmetic
  and comparison operations the source uses:
  - exact rationals `ℚ` (`qOps`) for the functional claims, treating each
    floating-point operation as exact;
  - `Option ℚ` (`nOps`) where `none` models an IEEE NaN: every arithmetic
    operation propagates `none` and every comparison involving `none`
    evaluates to `false` (IEEE unordered-comparison semantics), for the
    NaN-robustness claim.
* numpy boolean-mask indexing `a[mask]` is `compress`, masked assignment
  `candidates[candidates] = new` is `scatter`, integer fancy indexing and
  the numpy `IndexError` on malformed indices are modelled with `Option`
  (`none` = the call raises).
* Modelled from the spec: the constant `TOL_ZERO` lives in
  `trimesh/constants.py`, which is not part of the sources; per the spec
  (§6, §9) it is "a single shared floating-point epsilon ... treated as
  process-wide configuration", so every definition takes it as an explicit
  parameter `TOL`.
-/
import Mathlib

set_option maxHeartbeats 1000000

/- The Batteries rational-number operations are `@[irreducible]`, which
blocks `decide` on concrete inputs; restore reducibility so that concrete
runs of the embedded code evaluate. -/
set_option allowUnsafeReducibility true
attribute [semireducible] Rat.add Rat.mul Rat.div Rat.inv Rat.sub Rat.neg

/-- A 3-dimensional vector with coordinates in `α` (one row of a numpy
`(n, 3)` array). -/
structure Vec3 (α : Type) where
  x : α
  y : α
  z : α
deriving DecidableEq, Repr

/-- One triangle: the three vertex rows `triangles[i, 0..2, :]`. -/
structure Tri (α : Type) where
  v0 : Vec3 α
  v1 : Vec3 α
  v2 : Vec3 α
deriving DecidableEq, Repr

/-- The scalar operations the source uses, bundled so that the same
translation of the code can be read over exact rationals and over the
NaN-extended rationals. -/
structure Ops (α : Type) where
  add : α → α → α
  sub : α → α → α
  mul : α → α → α
  div : α → α → α
  neg : α → α
  one : α
  /-- the boolean value of `a < b` -/
  ltB : α → α → Bool
  /-- the boolean value of `a > b` -/
  gtB : α → α → Bool
  /-- the boolean value of `np.abs(a) < b` -/
  absltB : α → α → Bool

/-- Componentwise subtraction of `(n,3)` rows (`vert1 - vert0`). -/
def vsub (O : Ops α) (a b : Vec3 α) : Vec3 α :=
  ⟨O.sub a.x b.x, O.sub a.y b.y, O.sub a.z b.z⟩

/-- Row cross product (`np.cross`). -/
def cross (O : Ops α) (a b : Vec3 α) : Vec3 α :=
  ⟨O.sub (O.mul a.y b.z) (O.mul a.z b.y),
   O.sub (O.mul a.z b.x) (O.mul a.x b.z),
   O.sub (O.mul a.x b.y) (O.mul a.y b.x)⟩

/-- Dot product of two rows (`np.dot` of two 3-vectors). -/
def dot (O : Ops α) (a b : Vec3 α) : α :=
  O.add (O.add (O.mul a.x b.x) (O.mul a.y b.y)) (O.mul a.z b.z)

/-- `_diag_dot(a, b)`: the row-wise dot product
`np.array([np.dot(i, j) for i, j in zip(a, b)])`. -/
def diagDot (O : Ops α) (a b : List (Vec3 α)) : List α :=
  List.zipWith (dot O) a b

/-- numpy boolean-mask indexing `xs[mask]`: the elements of `xs` at the
positions where `mask` is `True`. -/
def compress : List Bool → List α → List α
  | true :: bs, x :: xs => x :: compress bs xs
  | false :: bs, _ :: xs => compress bs xs
  | _, _ => []

/-- numpy masked assignment `c[c] = upd`: entries of `c` that are `False`
stay, each `True` entry is replaced by the next entry of `upd`. -/
def scatter : List Bool → List Bool → List Bool
  | true :: bs, u :: us => u :: scatter bs us
  | true :: bs, [] => true :: scatter bs []
  | false :: bs, us => false :: scatter bs us
  | [], _ => []

/-- `ray_triangles(triangles, ray_origin, ray_direction)`: vectorized
Möller–Trumbore test of one ray against a batch of triangles, translated
line by line from the source (staged narrowing of the surviving subset,
with the three early returns). -/
def rayTrianglesG (O : Ops α) (TOL : α) (triangles : List (Tri α))
    (ray_origin ray_direction : Vec3 α) : List Bool :=
  let candidates := List.replicate triangles.length true
  let vert0 := triangles.map fun t => t.v0
  let vert1 := triangles.map fun t => t.v1
  let vert2 := triangles.map fun t => t.v2
  let edge0 := List.zipWith (vsub O) vert1 vert0
  let edge1 := List.zipWith (vsub O) vert2 vert0
  let P := edge1.map fun e => cross O ray_direction e
  let det := diagDot O edge0 P
  let candidates1 :=
    List.zipWith (fun b m => if m then false else b) candidates
      (det.map fun d => O.absltB d TOL)
  if candidates1.any id = false then candidates1 else
  let inv_det := (compress candidates1 det).map fun d => O.div O.one d
  let T := (compress candidates1 vert0).map fun v => vsub O ray_origin v
  let u := List.zipWith O.mul (diagDot O T (compress candidates1 P)) inv_det
  let nc2 := u.map fun a => !(O.ltB a (O.neg TOL) || O.gtB a (O.add O.one TOL))
  let candidates2 := scatter candidates1 nc2
  if candidates2.any id = false then candidates2 else
  let inv_det2 := compress nc2 inv_det
  let T2 := compress nc2 T
  let u2 := compress nc2 u
  let Q := List.zipWith (cross O) T2 (compress candidates2 edge0)
  let v := List.zipWith O.mul (Q.map fun q => dot O ray_direction q) inv_det2
  let nc3 := List.zipWith
    (fun b a => !(O.ltB b (O.neg TOL) || O.gtB (O.add a b) (O.add O.one TOL)))
    v u2
  let candidates3 := scatter candidates2 nc3
  if candidates3.any id = false then candidates3 else
  let Q2 := compress nc3 Q
  let inv_det3 := compress nc3 inv_det2
  let t := List.zipWith O.mul (diagDot O (compress candidates3 edge1) Q2) inv_det3
  scatter candidates3 (t.map fun a => O.gtB a TOL)

/-- Exact-rational reading of the floating-point scalar operations. -/
def qOps : Ops ℚ where
  add := (· + ·)
  sub := (· - ·)
  mul := (· * ·)
  div := (· / ·)
  neg := (- ·)
  one := 1
  ltB a b := decide (a < b)
  gtB a b := decide (a > b)
  absltB a b := decide (|a| < b)

/-- `ray_triangles` over exact rationals. -/
def ray_triangles (TOL : ℚ) : List (Tri ℚ) → Vec3 ℚ → Vec3 ℚ → List Bool :=
  rayTrianglesG qOps TOL

/-! ### Per-triangle derived quantities (the rows of the staged arrays) -/

/-- `edge0 = vert1 - vert0` for one triangle. -/
def triE0 (O : Ops α) (t : Tri α) : Vec3 α := vsub O t.v1 t.v0

/-- `edge1 = vert2 - vert0` for one triangle. -/
def triE1 (O : Ops α) (t : Tri α) : Vec3 α := vsub O t.v2 t.v0

/-- `P = np.cross(ray_direction, edge1)` for one triangle. -/
def triP (O : Ops α) (d : Vec3 α) (t : Tri α) : Vec3 α := cross O d (triE1 O t)

/-- `det = _diag_dot(edge0, P)` for one triangle. -/
def triDet (O : Ops α) (d : Vec3 α) (t : Tri α) : α := dot O (triE0 O t) (triP O d t)

/-- `inv_det = 1.0 / det` for one triangle. -/
def triInv (O : Ops α) (d : Vec3 α) (t : Tri α) : α := O.div O.one (triDet O d t)

/-- `T = ray_origin - vert0` for one triangle. -/
def triT (O : Ops α) (o : Vec3 α) (t : Tri α) : Vec3 α := vsub O o t.v0

/-- `u = _diag_dot(T, P) * inv_det` for one triangle. -/
def triU (O : Ops α) (o d : Vec3 α) (t : Tri α) : α :=
  O.mul (dot O (triT O o t) (triP O d t)) (triInv O d t)

/-- `Q = np.cross(T, edge0)` for one triangle. -/
def triQ (O : Ops α) (o : Vec3 α) (t : Tri α) : Vec3 α :=
  cross O (triT O o t) (triE0 O t)

/-- `v = np.dot(ray_direction, Q.T) * inv_det` for one triangle. -/
def triV (O : Ops α) (o d : Vec3 α) (t : Tri α) : α :=
  O.mul (dot O d (triQ O o t)) (triInv O d t)

/-- `t = _diag_dot(edge1, Q) * inv_det` for one triangle. -/
def triHitT (O : Ops α) (o d : Vec3 α) (t : Tri α) : α :=
  O.mul (dot O (triE1 O t) (triQ O o t)) (triInv O d t)

/-- Stage-1 survival: not `np.abs(det) < TOL_ZERO`. -/
def mtF1 (O : Ops α) (TOL : α) (d : Vec3 α) (t : Tri α) : Bool :=
  !(O.absltB (triDet O d t) TOL)

/-- Stage-2 survival: not (`u < -TOL_ZERO` or `u > 1 + TOL_ZERO`). -/
def mtF2 (O : Ops α) (TOL : α) (o d : Vec3 α) (t : Tri α) : Bool :=
  !(O.ltB (triU O o d t) (O.neg TOL) || O.gtB (triU O o d t) (O.add O.one TOL))

/-- Stage-3 survival: not (`v < -TOL_ZERO` or `u + v > 1 + TOL_ZERO`). -/
def mtF3 (O : Ops α) (TOL : α) (o d : Vec3 α) (t : Tri α) : Bool :=
  !(O.ltB (triV O o d t) (O.neg TOL) ||
    O.gtB (O.add (triU O o d t) (triV O o d t)) (O.add O.one TOL))

/-- Stage-4 survival: `t > TOL_ZERO`. -/
def mtF4 (O : Ops α) (TOL : α) (o d : Vec3 α) (t : Tri α) : Bool :=
  O.gtB (triHitT O o d t) TOL

/-- Conjunction of the four staged filters for one triangle. -/
def mt6G (O : Ops α) (TOL : α) (o d : Vec3 α) (t : Tri α) : Bool :=
  mtF1 O TOL d t && mtF2 O TOL o d t && mtF3 O TOL o d t && mtF4 O TOL o d t

/-! ### compress / scatter algebra -/

theorem compress_map_map (p : α → Bool) (f : α → β) :
    ∀ l : List α, compress (l.map p) (l.map f) = (l.filter p).map f := by
  intro l
  induction l with
  | nil => rfl
  | cons x xs ih =>
    cases hp : p x <;> simp [compress, List.filter, hp, ih]

theorem scatter_map_filter (p q : α → Bool) :
    ∀ l : List α, scatter (l.map p) ((l.filter p).map q) = l.map fun x => p x && q x := by
  intro l
  induction l with
  | nil => rfl
  | cons x xs ih =>
    cases hp : p x <;> simp [scatter, List.filter, hp, ih]

theorem filter_and (p q : α → Bool) :
    ∀ l : List α, (l.filter p).filter q = l.filter fun x => p x && q x := by
  intro l
  induction l with
  | nil => rfl
  | cons x xs ih =>
    cases hp : p x <;> simp [List.filter, hp, ih]

theorem zipWith_map_same (f : β → γ → δ) (g : α → β) (h : α → γ) :
    ∀ l : List α, List.zipWith f (l.map g) (l.map h) = l.map fun x => f (g x) (h x) := by
  intro l
  induction l with
  | nil => rfl
  | cons x xs ih => simp [ih]

theorem zipWith_replicate_map (F : Bool → β → γ) (c : Bool) (g : α → β) :
    ∀ l : List α,
      List.zipWith F (List.replicate l.length c) (l.map g) = l.map fun x => F c (g x) := by
  intro l
  induction l with
  | nil => rfl
  | cons x xs ih => simpa [List.replicate] using ih

theorem any_id_map_false (p : α → Bool) :
    ∀ l : List α, (l.map p).any id = false → ∀ x ∈ l, p x = false := by
  intro l
  induction l with
  | nil => intro _ x hx; cases hx
  | cons y ys ih =>
    intro h x hx
    simp only [List.map_cons, List.any_cons, Bool.or_eq_false_iff, id] at h
    rcases List.mem_cons.mp hx with rfl | hx
    · exact h.1
    · exact ih h.2 x hx

theorem map_congr_mem (f g : α → β) :
    ∀ l : List α, (∀ x ∈ l, f x = g x) → l.map f = l.map g := by
  intro l
  induction l with
  | nil => intro _; rfl
  | cons x xs ih =>
    intro h
    simp only [List.map_cons]
    rw [h x (List.mem_cons_self x xs), ih fun y hy => h y (List.mem_cons_of_mem x hy)]

theorem map_map_fun (f : α → β) (g : β → γ) :
    ∀ l : List α, (l.map f).map g = l.map fun x => g (f x) := by
  intro l; induction l with
  | nil => rfl
  | cons x xs ih => simp [ih]

theorem ifNotBool (b : Bool) : (if b = true then false else true) = !b := by
  cases b <;> rfl

/-- The staged, early-returning computation of `ray_triangles` equals the
pointwise conjunction of the four filters, triangle by triangle.  This is
the workhorse: the staged narrowing (and each early return) never changes
the per-triangle verdict. -/
theorem rayTrianglesG_eq_map (O : Ops α) (TOL : α) (ts : List (Tri α)) (o d : Vec3 α) :
    rayTrianglesG O TOL ts o d = ts.map (mt6G O TOL o d) := by
  simp only [rayTrianglesG, diagDot]
  simp only [map_map_fun, zipWith_map_same, zipWith_replicate_map, compress_map_map,
    scatter_map_filter, filter_and, ifNotBool]
  split_ifs with h1 h2 h3 <;>
    refine map_congr_mem _ _ ts fun x hx => ?_
  · have hx1 := any_id_map_false _ ts h1 x hx
    simp only [hx1, mt6G, mtF1, mtF2, mtF3, mtF4, triDet, triInv, triT, triP, triQ,
      triE0, triE1, triU, triV, triHitT, Bool.false_and]
  · have hx2 := any_id_map_false _ ts h2 x hx
    simp only [hx2, mt6G, mtF1, mtF2, mtF3, mtF4, triDet, triInv, triT, triP, triQ,
      triE0, triE1, triU, triV, triHitT, Bool.false_and]
  · have hx3 := any_id_map_false _ ts h3 x hx
    simp only [hx3, mt6G, mtF1, mtF2, mtF3, mtF4, triDet, triInv, triT, triP, triQ,
      triE0, triE1, triU, triV, triHitT, Bool.false_and]
  · simp only [mt6G, mtF1, mtF2, mtF3, mtF4, triDet, triInv, triT, triP, triQ,
      triE0, triE1, triU, triV, triHitT]

theorem ray_triangles_length (TOL : ℚ) (ts : List (Tri ℚ)) (o d : Vec3 ℚ) :
    (ray_triangles TOL ts o d).length = ts.length := by
  rw [ray_triangles, rayTrianglesG_eq_map, List.length_map]

/-! ### Spec-side statement of the Möller–Trumbore conditions (§4.1 steps 1–6) -/

/-- Spec-side 3-vector subtraction. -/
def specSub (a b : Vec3 ℚ) : Vec3 ℚ := ⟨a.x - b.x, a.y - b.y, a.z - b.z⟩

/-- Spec-side cross product. -/
def specCross (a b : Vec3 ℚ) : Vec3 ℚ :=
  ⟨a.y * b.z - a.z * b.y, a.z * b.x - a.x * b.z, a.x * b.y - a.y * b.x⟩

/-- Spec-side dot product. -/
def specDot (a b : Vec3 ℚ) : ℚ := a.x * b.x + a.y * b.y + a.z * b.z

/-- Spec step 3: `det = e0 · P` with `P = rayDirection × e1`. -/
def specDet (d : Vec3 ℚ) (tri : Tri ℚ) : ℚ :=
  specDot (specSub tri.v1 tri.v0) (specCross d (specSub tri.v2 tri.v0))

/-- Spec step 4: `u = (T · P) * invDet`. -/
def specU (o d : Vec3 ℚ) (tri : Tri ℚ) : ℚ :=
  specDot (specSub o tri.v0) (specCross d (specSub tri.v2 tri.v0)) * (1 / specDet d tri)

/-- Spec step 5: `v = (rayDirection · Q) * invDet` with `Q = T × e0`. -/
def specV (o d : Vec3 ℚ) (tri : Tri ℚ) : ℚ :=
  specDot d (specCross (specSub o tri.v0) (specSub tri.v1 tri.v0)) * (1 / specDet d tri)

/-- Spec step 6: `t = (e1 · Q) * invDet`. -/
def specT (o d : Vec3 ℚ) (tri : Tri ℚ) : ℚ :=
  specDot (specSub tri.v2 tri.v0) (specCross (specSub o tri.v0) (specSub tri.v1 tri.v0)) *
    (1 / specDet d tri)

/-- The six Möller–Trumbore survival conditions of the spec:
`|det| ≥ TOL_ZERO`, `-TOL_ZERO ≤ u`, `u ≤ 1+TOL_ZERO`, `v ≥ -TOL_ZERO`,
`u+v ≤ 1+TOL_ZERO`, `t > TOL_ZERO`. -/
def specHit (TOL : ℚ) (o d : Vec3 ℚ) (tri : Tri ℚ) : Prop :=
  TOL ≤ |specDet d tri| ∧ -TOL ≤ specU o d tri ∧ specU o d tri ≤ 1 + TOL ∧
    -TOL ≤ specV o d tri ∧ specU o d tri + specV o d tri ≤ 1 + TOL ∧
    TOL < specT o d tri

instance (TOL : ℚ) (o d : Vec3 ℚ) (tri : Tri ℚ) : Decidable (specHit TOL o d tri) := by
  unfold specHit; infer_instance

theorem mt6_qOps (TOL : ℚ) (o d : Vec3 ℚ) (x : Tri ℚ) :
    mt6G qOps TOL o d x = decide (specHit TOL o d x) := by
  rw [Bool.eq_iff_iff]
  simp only [mt6G, mtF1, mtF2, mtF3, mtF4, triDet, triU, triV, triHitT, triInv, triT,
    triP, triQ, triE0, triE1, qOps, specHit, specDet, specU, specV, specT, specSub,
    specCross, specDot, vsub, cross, dot, Bool.and_eq_true, Bool.not_eq_true',
    Bool.or_eq_false_iff, decide_eq_true_eq, decide_eq_false_iff_not, not_lt,
    gt_iff_lt]
  tauto

/-! ### Concrete geometry used by the witnesses -/

/-- The spec scenario triangle `{(0,0,0),(1,0,0),(0,1,0)}`. -/
def T0 : Tri ℚ := ⟨⟨0,0,0⟩, ⟨1,0,0⟩, ⟨0,1,0⟩⟩

/-- A fully degenerate (all-vertices-equal) triangle. -/
def TDeg : Tri ℚ := ⟨⟨0,0,0⟩, ⟨0,0,0⟩, ⟨0,0,0⟩⟩

/-- The spec scenario ray `origin (0.25, 0.25, 1), direction (0,0,-1)`. -/
def rayHit0 : Vec3 ℚ × Vec3 ℚ := (⟨1/4, 1/4, 1⟩, ⟨0, 0, -1⟩)

/-- The spec scenario miss ray `origin (5,5,1), direction (0,0,-1)`. -/
def rayMiss0 : Vec3 ℚ × Vec3 ℚ := (⟨5, 5, 1⟩, ⟨0, 0, -1⟩)

/-- C2: for every triangle batch, ray origin and direction, `ray_triangles`
returns a boolean mask of the same length and order as the batch whose
entry is true exactly when the six Möller–Trumbore conditions
(`|det| ≥ TOL_ZERO`, `-TOL_ZERO ≤ u ≤ 1+TOL_ZERO`, `v ≥ -TOL_ZERO`,
`u+v ≤ 1+TOL_ZERO`, `t > TOL_ZERO`) hold for that triangle, with `u, v, t`
as in spec steps 1–6. -/
theorem claim_C2 (TOL : ℚ) (ts : List (Tri ℚ)) (o d : Vec3 ℚ) :
    ray_triangles TOL ts o d = ts.map fun tri => decide (specHit TOL o d tri) := by
  rw [ray_triangles, rayTrianglesG_eq_map]
  exact map_congr_mem _ _ ts fun x _ => mt6_qOps TOL o d x

/-- C3: a triangle whose determinant fails `|det| ≥ TOL_ZERO` is
permanently excluded: its entry of the returned mask is false, whatever
the later stages compute. -/
theorem claim_C3 (TOL : ℚ) (ts : List (Tri ℚ)) (o d : Vec3 ℚ) (i : ℕ)
    (hi : i < ts.length) (hdet : |specDet d ts[i]| < TOL) :
    (ray_triangles TOL ts o d).getD i false = false := by
  rw [ray_triangles, rayTrianglesG_eq_map, List.getD_eq_getElem?_getD, List.getElem?_map,
    List.getElem?_eq_getElem hi]
  have hns : ¬ specHit TOL o d ts[i] := fun h => absurd h.1 (not_le.mpr hdet)
  simp [mt6_qOps, hns]

/-- Witness for C3 at a concrete input: a degenerate triangle has
`det = 0`, which fails the filter at `TOL_ZERO = 1/2`, and the returned
mask entry is indeed false. -/
theorem claim_C3_witness :
    (ray_triangles (1/2) [TDeg] ⟨0,0,0⟩ ⟨0,0,-1⟩).getD 0 false = false :=
  claim_C3 (1/2) [TDeg] ⟨0,0,0⟩ ⟨0,0,-1⟩ 0 (by decide) (by decide)

/-! ### The ray-batch driver `rays_triangles_id` -/

/-- A scalar stored in a numpy result array: numpy distinguishes integer
arrays from boolean arrays (`True` compares equal to `1`, not `0`). -/
inductive NPVal where
  | nint (n : ℕ)
  | nbool (b : Bool)
deriving DecidableEq, Repr

/-- One ray's candidate array: a boolean mask over the triangle list, or
an array of triangle indices (the docstring documents `(m, *) int array`;
the built-in default is the all-`True` boolean mask). -/
inductive Cands where
  | mask (m : List Bool)
  | idx (l : List ℕ)
deriving DecidableEq, Repr

/-- The value returned by `rays_triangles_id`: a single bool when
`return_any` is set, otherwise the per-ray records `np.array(hits)`. -/
inductive RaysRes where
  | anyHit (b : Bool)
  | hits (l : List (List NPVal))
deriving DecidableEq, Repr

/-- numpy integer fancy indexing `xs[l]`: every index must be in range,
otherwise numpy raises `IndexError` (modelled `none`). -/
def selIdx (xs : List α) : List ℕ → Option (List α)
  | [] => some []
  | j :: js =>
    match xs[j]?, selIdx xs js with
    | some x, some rest => some (x :: rest)
    | _, _ => none

/-- numpy fancy indexing `xs[c]`.  A boolean mask must have the array's
length and an integer index array must be in range; otherwise numpy
raises `IndexError`, modelled as `none`. -/
def npSelect (xs : List α) : Cands → Option (List α)
  | .mask m => if m.length = xs.length then some (compress m xs) else none
  | .idx l => selIdx xs l

/-- `np.array(candidates)` as a list of numpy scalars. -/
def candsToVals : Cands → List NPVal
  | .mask m => m.map NPVal.nbool
  | .idx l => l.map NPVal.nint

/-- Candidate resolution for the ray at index `i`: the default all-`True`
boolean mask over the `n` triangles, or `ray_candidates[ray_index]`
(`none` when `ray_index` is out of range of the candidates array). -/
def resolveC (rc : Option (List Cands)) (n i : ℕ) : Option Cands :=
  match rc with
  | none => some (.mask (List.replicate n true))
  | some ls => ls[i]?

/-- The hit mask the loop body computes for the ray at index `i`:
`ray_triangles(triangles[candidates], *ray)`. -/
def hitOfRay (TOL : ℚ) (ts : List (Tri ℚ)) (rc : Option (List Cands)) (i : ℕ)
    (r : Vec3 ℚ × Vec3 ℚ) : Option (List Bool) :=
  match resolveC rc ts.length i with
  | none => none
  | some cands =>
    match npSelect ts cands with
    | none => none
    | some sel => some (ray_triangles TOL sel r.1 r.2)

/-- The `for ray_index, ray in enumerate(rays)` loop of
`rays_triangles_id`, starting at ray index `i`. -/
def rtiLoop (TOL : ℚ) (ts : List (Tri ℚ)) (rc : Option (List Cands)) (return_any : Bool) :
    List (Vec3 ℚ × Vec3 ℚ) → ℕ → Option RaysRes
  | [], _ => some (if return_any then .anyHit false else .hits [])
  | r :: rest, i =>
    match resolveC rc ts.length i with
    | none => none
    | some cands =>
      match npSelect ts cands with
      | none => none
      | some sel =>
        let hit := ray_triangles TOL sel r.1 r.2
        if return_any then
          if hit.any id then some (.anyHit true)
          else rtiLoop TOL ts rc return_any rest (i + 1)
        else
          match npSelect (candsToVals cands) (.mask hit) with
          | none => none
          | some entry =>
            match rtiLoop TOL ts rc return_any rest (i + 1) with
            | none => none
            | some (.anyHit b) => some (.anyHit b)
            | some (.hits l) => some (.hits (entry :: l))

/-- `rays_triangles_id(triangles, rays, ray_candidates, return_any)`. -/
def rays_triangles_id (TOL : ℚ) (triangles : List (Tri ℚ))
    (rays : List (Vec3 ℚ × Vec3 ℚ)) (ray_candidates : Option (List Cands))
    (return_any : Bool) : Option RaysRes :=
  rtiLoop TOL triangles ray_candidates return_any rays 0

theorem compress_replicate_true : ∀ l : List α, compress (List.replicate l.length true) l = l := by
  intro l
  induction l with
  | nil => rfl
  | cons x xs ih => simp [List.replicate, compress, ih]

theorem compress_eq_nil_iff : ∀ (c : List Bool) (xs : List α), c.length = xs.length →
    (compress c xs = [] ↔ c.any id = false) := by
  intro c
  induction c with
  | nil => intro xs h; simp [compress]
  | cons b bs ih =>
    intro xs h
    cases xs with
    | nil => simp at h
    | cons x xs =>
      cases b
      · simpa [compress] using ih xs (by simpa using h)
      · simp [compress]

theorem selIdx_ok (xs : List α) (dflt : α) :
    ∀ l : List ℕ, (∀ j ∈ l, j < xs.length) →
      selIdx xs l = some (l.map fun j => xs[j]?.getD dflt) := by
  intro l
  induction l with
  | nil => intro _; rfl
  | cons j js ih =>
    intro h
    have hj : j < xs.length := h j (List.mem_cons_self j js)
    have hjs := ih fun a ha => h a (List.mem_cons_of_mem j ha)
    simp [selIdx, hjs, List.getElem?_eq_getElem hj]

def GoodC (n : ℕ) : Cands → Prop
  | .mask m => m = List.replicate n true
  | .idx l => ∀ j ∈ l, j < n

def ValidFrom (rc : Option (List Cands)) (n i len : ℕ) : Prop :=
  ∀ k < len, ∃ c, resolveC rc n (i + k) = some c ∧ GoodC n c

theorem bodyOk (TOL : ℚ) (ts : List (Tri ℚ)) (c : Cands) (hc : GoodC ts.length c)
    (r : Vec3 ℚ × Vec3 ℚ) :
    ∃ sel e, npSelect ts c = some sel ∧
      npSelect (candsToVals c) (.mask (ray_triangles TOL sel r.1 r.2)) = some e ∧
      (e = [] ↔ (ray_triangles TOL sel r.1 r.2).any id = false) := by
  cases c with
  | mask m =>
    have hm : m = List.replicate ts.length true := hc
    subst hm
    have hsel : npSelect ts (Cands.mask (List.replicate ts.length true)) = some ts := by
      simp [npSelect, compress_replicate_true]
    have hlen : (ray_triangles TOL ts r.1 r.2).length =
        (candsToVals (Cands.mask (List.replicate ts.length true))).length := by
      simp [candsToVals, ray_triangles_length]
    refine ⟨ts, compress (ray_triangles TOL ts r.1 r.2)
        (candsToVals (Cands.mask (List.replicate ts.length true))), hsel, ?_, ?_⟩
    · simp [npSelect, hlen]
    · exact compress_eq_nil_iff _ _ hlen
  | idx l =>
    have hl : ∀ j ∈ l, j < ts.length := hc
    have hsel : npSelect ts (Cands.idx l) = some (l.map fun j => ts[j]?.getD TDeg) := by
      simpa [npSelect] using selIdx_ok ts TDeg l hl
    have hlen : (ray_triangles TOL (l.map fun j => ts[j]?.getD TDeg) r.1 r.2).length =
        (candsToVals (Cands.idx l)).length := by
      simp [candsToVals, ray_triangles_length]
    refine ⟨l.map fun j => ts[j]?.getD TDeg,
      compress (ray_triangles TOL (l.map fun j => ts[j]?.getD TDeg) r.1 r.2)
        (candsToVals (Cands.idx l)), hsel, ?_, ?_⟩
    · simp [npSelect, hlen]
    · exact compress_eq_nil_iff _ _ hlen

theorem validTail {rc : Option (List Cands)} {n i len : ℕ}
    (hv : ValidFrom rc n i (len + 1)) : ValidFrom rc n (i + 1) len := by
  intro k hk
  have := hv (k + 1) (by omega)
  simpa [show i + (k + 1) = i + 1 + k by omega] using this

theorem loopFalseOk (TOL : ℚ) (ts : List (Tri ℚ)) (rc : Option (List Cands)) :
    ∀ (rays : List (Vec3 ℚ × Vec3 ℚ)) (i : ℕ), ValidFrom rc ts.length i rays.length →
      ∃ H, rtiLoop TOL ts rc false rays i = some (.hits H) := by
  intro rays
  induction rays with
  | nil => exact fun i _ => ⟨[], rfl⟩
  | cons r rest ih =>
    intro i hv
    obtain ⟨c, hres, hgood⟩ := hv 0 (Nat.succ_pos _)
    rw [Nat.add_zero] at hres
    obtain ⟨sel, e, hsel, hentry, -⟩ := bodyOk TOL ts c hgood r
    obtain ⟨H, hH⟩ := ih (i + 1) (validTail hv)
    exact ⟨e :: H, by simp [rtiLoop, hres, hsel, hentry, hH]⟩

theorem loopAnyIff (TOL : ℚ) (ts : List (Tri ℚ)) (rc : Option (List Cands)) :
    ∀ (rays : List (Vec3 ℚ × Vec3 ℚ)) (i : ℕ), ValidFrom rc ts.length i rays.length →
      (rtiLoop TOL ts rc true rays i = some (.anyHit true) ↔
        ∃ H, rtiLoop TOL ts rc false rays i = some (.hits H) ∧ ∃ e ∈ H, e ≠ []) := by
  intro rays
  induction rays with
  | nil =>
    intro i _
    constructor
    · intro h; simp [rtiLoop] at h
    · rintro ⟨H, hH, e, he, hne⟩
      have hHnil : ([] : List (List NPVal)) = H := by simpa [rtiLoop] using hH
      rw [← hHnil] at he
      cases he
  | cons r rest ih =>
    intro i hv
    obtain ⟨c, hres, hgood⟩ := hv 0 (Nat.succ_pos _)
    rw [Nat.add_zero] at hres
    obtain ⟨sel, e, hsel, hentry, hnil⟩ := bodyOk TOL ts c hgood r
    obtain ⟨H, hH⟩ := loopFalseOk TOL ts rc rest (i + 1) (validTail hv)
    by_cases hhit : (ray_triangles TOL sel r.1 r.2).any id = true
    · have he : e ≠ [] := fun h0 => by
        rw [hnil.mp h0] at hhit; cases hhit
      constructor
      · intro _
        exact ⟨e :: H, by simp [rtiLoop, hres, hsel, hentry, hH],
          e, List.mem_cons_self e H, he⟩
      · intro _
        simp [rtiLoop, hres, hsel, hhit]
    · have hfalse : (ray_triangles TOL sel r.1 r.2).any id = false :=
        Bool.eq_false_iff.mpr hhit
      have he0 : e = [] := hnil.mpr hfalse
      subst he0
      have hloopT : rtiLoop TOL ts rc true (r :: rest) i =
          rtiLoop TOL ts rc true rest (i + 1) := by
        simp [rtiLoop, hres, hsel, hhit]
      have hloopF : rtiLoop TOL ts rc false (r :: rest) i = some (.hits ([] :: H)) := by
        simp [rtiLoop, hres, hsel, hentry, hH]
      rw [hloopT, hloopF, ih (i + 1) (validTail hv)]
      constructor
      · rintro ⟨H1, hH1, e1, he1, hne1⟩
        rw [hH] at hH1
        have : H = H1 := by simpa using hH1
        subst this
        exact ⟨[] :: H, rfl, e1, List.mem_cons_of_mem _ he1, hne1⟩
      · rintro ⟨H2, hH2, e2, he2, hne2⟩
        have h2 : ([] : List NPVal) :: H = H2 := by simpa using hH2
        rw [← h2] at he2
        rcases List.mem_cons.mp he2 with rfl | hmem
        · exact absurd rfl hne2
        · exact ⟨H, hH, e2, hmem, hne2⟩

/-- C4: with well-formed candidate sets, `rays_triangles_id` with
`return_any=true` returns `True` iff the full per-ray result computed with
`return_any=false` on identical input contains at least one non-empty
per-ray list. -/
theorem claim_C4 (TOL : ℚ) (ts : List (Tri ℚ)) (rays : List (Vec3 ℚ × Vec3 ℚ))
    (rc : Option (List Cands))
    (hv : ∀ k < rays.length, ∃ c, resolveC rc ts.length k = some c ∧ GoodC ts.length c) :
    rays_triangles_id TOL ts rays rc true = some (.anyHit true) ↔
      ∃ H, rays_triangles_id TOL ts rays rc false = some (.hits H) ∧ ∃ e ∈ H, e ≠ [] := by
  have hv0 : ValidFrom rc ts.length 0 rays.length := by
    intro k hk; simpa using hv k hk
  exact loopAnyIff TOL ts rc rays 0 hv0

/-- Witness for C4 at a concrete input (scenario triangle and hit ray,
default candidates). -/
theorem claim_C4_witness :
    rays_triangles_id (1/1000000000000) [T0] [rayHit0] none true = some (.anyHit true) ↔
      ∃ H, rays_triangles_id (1/1000000000000) [T0] [rayHit0] none false = some (.hits H) ∧
        ∃ e ∈ H, e ≠ [] :=
  claim_C4 (1/1000000000000) [T0] [rayHit0] none fun _ _ =>
    ⟨.mask (List.replicate 1 true), rfl, rfl⟩

def cfEntries (TOL : ℚ) (ts : List (Tri ℚ)) (ls : List (List ℕ)) :
    List (Vec3 ℚ × Vec3 ℚ) → ℕ → List (List NPVal)
  | [], _ => []
  | r :: rest, i =>
    ((ls.getD i []).filter fun j => mt6G qOps TOL r.1 r.2 (ts[j]?.getD TDeg)).map NPVal.nint ::
      cfEntries TOL ts ls rest (i + 1)

theorem cfIdx (TOL : ℚ) (ts : List (Tri ℚ)) (ls : List (List ℕ))
    (hls : ∀ l ∈ ls, ∀ j ∈ l, j < ts.length) :
    ∀ (rays : List (Vec3 ℚ × Vec3 ℚ)) (i : ℕ), i + rays.length ≤ ls.length →
      rtiLoop TOL ts (some (ls.map Cands.idx)) false rays i =
        some (.hits (cfEntries TOL ts ls rays i)) := by
  intro rays
  induction rays with
  | nil => intro i _; rfl
  | cons r rest ih =>
    intro i hlen
    have hi : i < ls.length := by simp at hlen; omega
    have hres : resolveC (some (ls.map Cands.idx)) ts.length i = some (.idx ls[i]) := by
      simp [resolveC, List.getElem?_eq_getElem hi]
    have hl0 : ∀ j ∈ ls[i], j < ts.length := hls _ (List.getElem_mem hi)
    have hsel : npSelect ts (Cands.idx ls[i]) =
        some (ls[i].map fun j => ts[j]?.getD TDeg) := by
      simpa [npSelect] using selIdx_ok ts TDeg ls[i] hl0
    have hhit : ray_triangles TOL (ls[i].map fun j => ts[j]?.getD TDeg) r.1 r.2 =
        ls[i].map fun j => mt6G qOps TOL r.1 r.2 (ts[j]?.getD TDeg) := by
      rw [ray_triangles, rayTrianglesG_eq_map, map_map_fun]
    have hentry : npSelect (candsToVals (Cands.idx ls[i]))
        (.mask (ray_triangles TOL (ls[i].map fun j => ts[j]?.getD TDeg) r.1 r.2)) =
        some ((ls[i].filter fun j => mt6G qOps TOL r.1 r.2 (ts[j]?.getD TDeg)).map
          NPVal.nint) := by
      rw [hhit]
      simp [npSelect, candsToVals, compress_map_map]
    have hrec := ih (i + 1) (by simp at hlen ⊢; omega)
    have hget : ls[i]?.getD [] = ls[i] := by
      simp [List.getElem?_eq_getElem hi]
    simp [rtiLoop, hres, hsel, hentry, hrec, cfEntries, hget]

theorem cfSubset (TOL : ℚ) (ts : List (Tri ℚ)) (ls : List (List ℕ))
    (hls : ∀ l ∈ ls, ∀ j ∈ l, j < ts.length) (M : ℕ) :
    ∀ (rays : List (Vec3 ℚ × Vec3 ℚ)) (i i' : ℕ), i + rays.length ≤ ls.length →
      i' + rays.length ≤ M → ∀ k x, x ∈ (cfEntries TOL ts ls rays i).getD k [] →
        x ∈ (cfEntries TOL ts (List.replicate M (List.range ts.length)) rays i').getD k [] := by
  intro rays
  induction rays with
  | nil => intro i i' _ _ k x hx; simp [cfEntries] at hx
  | cons r rest ih =>
    intro i i' hlen hlen' k x hx
    cases k with
    | zero =>
      simp only [cfEntries, List.getD_cons_zero] at hx ⊢
      have hi : i < ls.length := by simp at hlen; omega
      have hi' : i' < M := by simp at hlen'; omega
      have hget : ls.getD i [] = ls[i] := by
        simp [List.getD_eq_getElem?_getD, List.getElem?_eq_getElem hi]
      have hget' : (List.replicate M (List.range ts.length)).getD i' [] =
          List.range ts.length := by
        simp [List.getD_eq_getElem?_getD, List.getElem?_eq_getElem
          (by simpa using hi' : i' < (List.replicate M (List.range ts.length)).length)]
      rw [hget] at hx
      rw [hget']
      obtain ⟨j, hj, rfl⟩ := List.mem_map.mp hx
      obtain ⟨hjmem, hjp⟩ := List.mem_filter.mp hj
      have hjn : j < ts.length := hls _ (List.getElem_mem hi) j hjmem
      exact List.mem_map.mpr ⟨j, List.mem_filter.mpr ⟨List.mem_range.mpr hjn, hjp⟩, rfl⟩
    | succ k =>
      simp only [cfEntries, List.getD_cons_succ] at hx ⊢
      exact ih (i + 1) (i' + 1) (by simp at hlen ⊢; omega) (by simp at hlen' ⊢; omega) k x hx

/-- Membership of a per-ray record: index `j` is recorded for the ray at
position `k` exactly when `j` is in that ray's candidate list and the
triangle at `j` passes the hit test. -/
theorem cfMem (TOL : ℚ) (ts : List (Tri ℚ)) (ls : List (List ℕ)) :
    ∀ (rays : List (Vec3 ℚ × Vec3 ℚ)) (i k : ℕ) (hk : k < rays.length) (j : ℕ),
      (NPVal.nint j ∈ (cfEntries TOL ts ls rays i).getD k [] ↔
        j ∈ ls.getD (i + k) [] ∧
          mt6G qOps TOL (rays.get ⟨k, hk⟩).1 (rays.get ⟨k, hk⟩).2
            (ts[j]?.getD TDeg) = true) := by
  intro rays
  induction rays with
  | nil => intro i k hk j; cases hk
  | cons r rest ih =>
    intro i k hk j
    cases k with
    | zero =>
      simp only [cfEntries, List.getD_cons_zero, Nat.add_zero]
      constructor
      · intro hx
        obtain ⟨a, ha, heq⟩ := List.mem_map.mp hx
        obtain rfl : a = j := by simpa using heq
        exact ⟨(List.mem_filter.mp ha).1, (List.mem_filter.mp ha).2⟩
      · rintro ⟨hmem, hp⟩
        exact List.mem_map.mpr ⟨j, List.mem_filter.mpr ⟨hmem, hp⟩, rfl⟩
    | succ k =>
      simp only [cfEntries, List.getD_cons_succ]
      have h2 := ih (i + 1) k (Nat.lt_of_succ_lt_succ hk) j
      rw [show i + 1 + k = i + (k + 1) by omega] at h2
      exact h2

/-- C5: candidate filtering never introduces new hits.  For index-array
candidate sets (the documented form), every ray's reported record is
characterized exactly: index `j` is reported iff `j` is in that ray's
candidate list and triangle `j` passes the Möller–Trumbore hit test
(third conjunct); the full-candidate run reports exactly the in-range
hit indices (fourth conjunct); hence the restricted record is a subset
of the full one (fifth conjunct).  In particular a candidate set that
excludes the one triangle the ray would hit reports nothing for it, and
one that includes every hit triangle reports the original result. -/
theorem claim_C5 (TOL : ℚ) (ts : List (Tri ℚ)) (rays : List (Vec3 ℚ × Vec3 ℚ))
    (ls : List (List ℕ)) (h1 : rays.length ≤ ls.length)
    (h2 : ∀ l ∈ ls, ∀ j ∈ l, j < ts.length) :
    ∃ H1 H2,
      rays_triangles_id TOL ts rays (some (ls.map Cands.idx)) false = some (.hits H1) ∧
      rays_triangles_id TOL ts rays
        (some ((List.replicate rays.length (List.range ts.length)).map Cands.idx)) false =
          some (.hits H2) ∧
      (∀ k (hk : k < rays.length) (j : ℕ),
        NPVal.nint j ∈ H1.getD k [] ↔
          j ∈ ls.getD k [] ∧
            specHit TOL (rays.get ⟨k, hk⟩).1 (rays.get ⟨k, hk⟩).2 (ts[j]?.getD TDeg)) ∧
      (∀ k (hk : k < rays.length) (j : ℕ),
        NPVal.nint j ∈ H2.getD k [] ↔
          j < ts.length ∧
            specHit TOL (rays.get ⟨k, hk⟩).1 (rays.get ⟨k, hk⟩).2 (ts[j]?.getD TDeg)) ∧
      ∀ k x, x ∈ H1.getD k [] → x ∈ H2.getD k [] := by
  have hrep : ∀ l ∈ List.replicate rays.length (List.range ts.length),
      ∀ j ∈ l, j < ts.length := by
    intro l hl j hj
    rw [List.eq_of_mem_replicate hl] at hj
    exact List.mem_range.mp hj
  refine ⟨cfEntries TOL ts ls rays 0,
    cfEntries TOL ts (List.replicate rays.length (List.range ts.length)) rays 0,
    cfIdx TOL ts ls h2 rays 0 (by omega),
    cfIdx TOL ts _ hrep rays 0 (by simp),
    ?_, ?_,
    cfSubset TOL ts ls h2 rays.length rays 0 0 (by omega) (by omega)⟩
  · intro k hk j
    have hc := cfMem TOL ts ls rays 0 k hk j
    rw [Nat.zero_add] at hc
    rw [hc, mt6_qOps, decide_eq_true_eq]
  · intro k hk j
    have hc := cfMem TOL ts (List.replicate rays.length (List.range ts.length))
      rays 0 k hk j
    rw [Nat.zero_add] at hc
    have hget : (List.replicate rays.length (List.range ts.length)).getD k [] =
        List.range ts.length := by
      rw [List.getD_eq_getElem?_getD, List.getElem?_eq_getElem (by simpa using hk)]
      simp [List.getElem_replicate]
    rw [hget] at hc
    rw [hc, mt6_qOps, decide_eq_true_eq, List.mem_range]

/-- Witness for C5 at a concrete input: two triangles, candidates
restricted to `[1]`, compared against the full candidate set. -/
theorem claim_C5_witness :
    ∃ H1 H2,
      rays_triangles_id (1/1000000000000) [T0, T0] [rayHit0]
          (some ([[1]].map Cands.idx)) false = some (.hits H1) ∧
      rays_triangles_id (1/1000000000000) [T0, T0] [rayHit0]
        (some ((List.replicate [rayHit0].length (List.range [T0, T0].length)).map
          Cands.idx)) false = some (.hits H2) ∧
      (∀ k (hk : k < [rayHit0].length) (j : ℕ),
        NPVal.nint j ∈ H1.getD k [] ↔
          j ∈ [[1]].getD k [] ∧
            specHit (1/1000000000000) ([rayHit0].get ⟨k, hk⟩).1
              ([rayHit0].get ⟨k, hk⟩).2 ([T0, T0][j]?.getD TDeg)) ∧
      (∀ k (hk : k < [rayHit0].length) (j : ℕ),
        NPVal.nint j ∈ H2.getD k [] ↔
          j < [T0, T0].length ∧
            specHit (1/1000000000000) ([rayHit0].get ⟨k, hk⟩).1
              ([rayHit0].get ⟨k, hk⟩).2 ([T0, T0][j]?.getD TDeg)) ∧
      ∀ k x, x ∈ H1.getD k [] → x ∈ H2.getD k [] :=
  claim_C5 (1/1000000000000) [T0, T0] [rayHit0] [[1]] (by decide) (by decide)

theorem rtiLoop_true_cons (TOL : ℚ) (ts : List (Tri ℚ)) (rc : Option (List Cands))
    (r : Vec3 ℚ × Vec3 ℚ) (rest : List (Vec3 ℚ × Vec3 ℚ)) (i : ℕ) :
    rtiLoop TOL ts rc true (r :: rest) i =
      match hitOfRay TOL ts rc i r with
      | none => none
      | some m =>
        if m.any id then some (.anyHit true) else rtiLoop TOL ts rc true rest (i + 1) := by
  cases hres : resolveC rc ts.length i with
  | none => simp [rtiLoop, hitOfRay, hres]
  | some c =>
    cases hsel : npSelect ts c with
    | none => simp [rtiLoop, hitOfRay, hres, hsel]
    | some sel => simp [rtiLoop, hitOfRay, hres, hsel]

theorem loopShortCircuit (TOL : ℚ) (ts : List (Tri ℚ)) (rc : Option (List Cands)) :
    ∀ (pre : List (Vec3 ℚ × Vec3 ℚ)) (r : Vec3 ℚ × Vec3 ℚ)
      (post : List (Vec3 ℚ × Vec3 ℚ)) (i : ℕ),
      (∀ k (hk : k < pre.length),
        ∃ m, hitOfRay TOL ts rc (i + k) (pre.get ⟨k, hk⟩) = some m ∧ m.any id = false) →
      (∃ m, hitOfRay TOL ts rc (i + pre.length) r = some m ∧ m.any id = true) →
      rtiLoop TOL ts rc true (pre ++ r :: post) i = some (.anyHit true) := by
  intro pre
  induction pre with
  | nil =>
    intro r post i _ hr
    obtain ⟨m, hm, hma⟩ := hr
    simp only [List.length_nil, Nat.add_zero] at hm
    rw [List.nil_append, rtiLoop_true_cons, hm]
    simp [hma]
  | cons p pre ih =>
    intro r post i hpre hr
    obtain ⟨m0, hm0, hm0f⟩ := hpre 0 (Nat.succ_pos _)
    simp only [Nat.add_zero] at hm0
    have hm0p : hitOfRay TOL ts rc i p = some m0 := hm0
    rw [List.cons_append, rtiLoop_true_cons, hm0p]
    simp only [hm0f, Bool.false_eq_true, if_false]
    refine ih r post (i + 1) (fun k hk => ?_) ?_
    · have h2 := hpre (k + 1) (Nat.succ_lt_succ hk)
      rw [show i + (k + 1) = i + 1 + k by omega] at h2
      exact h2
    · rw [List.length_cons, show i + (pre.length + 1) = i + 1 + pre.length by omega] at hr
      exact hr
  
theorem loopAllMiss (TOL : ℚ) (ts : List (Tri ℚ)) (rc : Option (List Cands)) :
    ∀ (rays : List (Vec3 ℚ × Vec3 ℚ)) (i : ℕ),
      (∀ k (hk : k < rays.length),
        ∃ m, hitOfRay TOL ts rc (i + k) (rays.get ⟨k, hk⟩) = some m ∧ m.any id = false) →
      rtiLoop TOL ts rc true rays i = some (.anyHit false) := by
  intro rays
  induction rays with
  | nil => intro i _; rfl
  | cons p rest ih =>
    intro i hmiss
    obtain ⟨m0, hm0, hm0f⟩ := hmiss 0 (Nat.succ_pos _)
    simp only [Nat.add_zero] at hm0
    have hm0p : hitOfRay TOL ts rc i p = some m0 := hm0
    rw [rtiLoop_true_cons, hm0p]
    simp only [hm0f, Bool.false_eq_true, if_false]
    refine ih (i + 1) fun k hk => ?_
    have h2 := hmiss (k + 1) (Nat.succ_lt_succ hk)
    rw [show i + (k + 1) = i + 1 + k by omega] at h2
    exact h2

/-- C6: with `return_any` set the driver processes rays in index order
and yields `True` at the first ray whose hit mask has any true entry —
the suffix `post` after that ray is arbitrary and never consulted — and
it yields `False` only after all rays produced all-false masks. -/
theorem claim_C6 (TOL : ℚ) (ts : List (Tri ℚ)) (rc : Option (List Cands)) :
    (∀ (pre : List (Vec3 ℚ × Vec3 ℚ)) (r : Vec3 ℚ × Vec3 ℚ)
        (post : List (Vec3 ℚ × Vec3 ℚ)),
      (∀ k (hk : k < pre.length),
        ∃ m, hitOfRay TOL ts rc k (pre.get ⟨k, hk⟩) = some m ∧ m.any id = false) →
      (∃ m, hitOfRay TOL ts rc pre.length r = some m ∧ m.any id = true) →
      rays_triangles_id TOL ts (pre ++ r :: post) rc true = some (.anyHit true)) ∧
    (∀ rays : List (Vec3 ℚ × Vec3 ℚ),
      (∀ k (hk : k < rays.length),
        ∃ m, hitOfRay TOL ts rc k (rays.get ⟨k, hk⟩) = some m ∧ m.any id = false) →
      rays_triangles_id TOL ts rays rc true = some (.anyHit false)) := by
  constructor
  · intro pre r post hpre hr
    exact loopShortCircuit TOL ts rc pre r post 0
      (fun k hk => by simpa using hpre k hk) (by simpa using hr)
  · intro rays hmiss
    exact loopAllMiss TOL ts rc rays 0 fun k hk => by simpa using hmiss k hk

/-- Witness for C6: a missing ray followed by a hitting ray followed by a
further ray; the short-circuit part of C6 applies. -/
theorem claim_C6_witness :
    rays_triangles_id (1/1000000000000) [T0] [rayMiss0, rayHit0, rayMiss0] none true =
      some (.anyHit true) := by
  refine (claim_C6 (1/1000000000000) [T0] none).1 [rayMiss0] rayHit0 [rayMiss0]
    (fun k hk => ?_) ⟨[true], by decide, rfl⟩
  have hk1 : k < 1 := by simpa using hk
  have hk0 : k = 0 := by omega
  subst hk0
  refine ⟨[false], ?_, rfl⟩
  show hitOfRay (1/1000000000000) [T0] none 0 rayMiss0 = some [false]
  decide

/-- `ray_triangles` on an empty batch returns the empty mask. -/
theorem ray_triangles_nil (TOL : ℚ) (o d : Vec3 ℚ) : ray_triangles TOL [] o d = [] := rfl

theorem loopZeroTris (TOL : ℚ) (ra : Bool) :
    ∀ (rays : List (Vec3 ℚ × Vec3 ℚ)) (i : ℕ),
      rtiLoop TOL [] none ra rays i =
        some (if ra then .anyHit false else .hits (rays.map fun _ => [])) := by
  intro rays
  induction rays with
  | nil => intro i; cases ra <;> rfl
  | cons r rest ih =>
    intro i
    cases ra <;>
      simp [rtiLoop, resolveC, npSelect, candsToVals, compress, ih, ray_triangles_nil]

/-- C7: zero rays give an empty result (`False` in any-mode) without
invoking the intersector; with zero triangles and default candidates the
candidate set of every ray is empty, the intersector returns an empty
mask (third conjunct), and every ray's result is the empty list
(`False` in any-mode). -/
theorem claim_C7 (TOL : ℚ) :
    (∀ (ts : List (Tri ℚ)) (rc : Option (List Cands)) (ra : Bool),
      rays_triangles_id TOL ts [] rc ra =
        some (if ra then .anyHit false else .hits [])) ∧
    (∀ (rays : List (Vec3 ℚ × Vec3 ℚ)) (ra : Bool),
      rays_triangles_id TOL [] rays none ra =
        some (if ra then .anyHit false else .hits (rays.map fun _ => []))) ∧
    (∀ o d : Vec3 ℚ, ray_triangles TOL [] o d = []) :=
  ⟨fun _ _ ra => by cases ra <;> rfl,
   fun rays ra => loopZeroTris TOL ra rays 0,
   fun _ _ => rfl⟩

theorem rtiLoop_false_cons (TOL : ℚ) (ts : List (Tri ℚ)) (rc : Option (List Cands))
    (r : Vec3 ℚ × Vec3 ℚ) (rest : List (Vec3 ℚ × Vec3 ℚ)) (i : ℕ) :
    rtiLoop TOL ts rc false (r :: rest) i =
      match resolveC rc ts.length i with
      | none => none
      | some cands =>
        match npSelect ts cands with
        | none => none
        | some sel =>
          match npSelect (candsToVals cands) (.mask (ray_triangles TOL sel r.1 r.2)) with
          | none => none
          | some entry =>
            match rtiLoop TOL ts rc false rest (i + 1) with
            | none => none
            | some (.anyHit b) => some (.anyHit b)
            | some (.hits l) => some (.hits (entry :: l)) := by
  cases hres : resolveC rc ts.length i with
  | none => simp [rtiLoop, hres]
  | some c =>
    cases hsel : npSelect ts c with
    | none => simp [rtiLoop, hres, hsel]
    | some sel => simp [rtiLoop, hres, hsel]

theorem loopFalseNone (TOL : ℚ) (ts : List (Tri ℚ)) (rc : Option (List Cands)) :
    ∀ (rays : List (Vec3 ℚ × Vec3 ℚ)) (i : ℕ),
      (∃ k, ∃ hk : k < rays.length, hitOfRay TOL ts rc (i + k) (rays.get ⟨k, hk⟩) = none) →
      rtiLoop TOL ts rc false rays i = none := by
  intro rays
  induction rays with
  | nil => rintro i ⟨k, hk, -⟩; cases hk
  | cons r rest ih =>
    rintro i ⟨k, hk, hnone⟩
    cases k with
    | zero =>
      have hr : hitOfRay TOL ts rc i r = none := hnone
      cases hres : resolveC rc ts.length i with
      | none => simp [rtiLoop_false_cons, hres]
      | some c =>
        cases hsel : npSelect ts c with
        | none => simp [rtiLoop_false_cons, hres, hsel]
        | some sel => simp [hitOfRay, hres, hsel] at hr
    | succ k =>
      have hrec : rtiLoop TOL ts rc false rest (i + 1) = none := by
        refine ih (i + 1) ⟨k, Nat.lt_of_succ_lt_succ hk, ?_⟩
        have h2 : hitOfRay TOL ts rc (i + (k + 1)) ((r :: rest).get ⟨k + 1, hk⟩) = none :=
          hnone
        rw [show i + (k + 1) = i + 1 + k by omega] at h2
        exact h2
      cases hres : resolveC rc ts.length i with
      | none => simp [rtiLoop_false_cons, hres]
      | some c =>
        cases hsel : npSelect ts c with
        | none => simp [rtiLoop_false_cons, hres, hsel]
        | some sel =>
          cases hentry : npSelect (candsToVals c)
              (.mask (ray_triangles TOL sel r.1 r.2)) with
          | none => simp [rtiLoop_false_cons, hres, hsel, hentry]
          | some entry => simp [rtiLoop_false_cons, hres, hsel, hentry, hrec]

/-- C8 (amended): with `return_any=false`, any input whose per-ray
boolean candidate mask length differs from the triangle count, or whose
candidates array is shorter than the ray count, makes `rays_triangles_id`
fail fast with the invalid-input signal (numpy `IndexError`, modelled
`none`).  With `return_any=true` this can be preempted by an earlier hit
(see the counterexample). -/
theorem claim_C8_amended (TOL : ℚ) (ts : List (Tri ℚ)) (rays : List (Vec3 ℚ × Vec3 ℚ))
    (ls : List Cands)
    (hbad : (∃ k, k < rays.length ∧ ∃ m, ls[k]? = some (.mask m) ∧
        m.length ≠ ts.length) ∨ ls.length < rays.length) :
    rays_triangles_id TOL ts rays (some ls) false = none := by
  rcases hbad with ⟨k, hk, m, hls, hne⟩ | hshort
  · refine loopFalseNone TOL ts (some ls) rays 0 ⟨k, hk, ?_⟩
    rw [Nat.zero_add]
    simp [hitOfRay, resolveC, hls, npSelect, hne]
  · refine loopFalseNone TOL ts (some ls) rays 0 ⟨ls.length, hshort, ?_⟩
    rw [Nat.zero_add]
    simp [hitOfRay, resolveC, List.getElem?_eq_none (Nat.le_refl ls.length)]

/-- Witness for the amended C8: one triangle but a length-2 candidate
mask makes the query raise. -/
theorem claim_C8_amended_witness :
    rays_triangles_id (1/1000000000000) [T0] [rayHit0]
      (some [Cands.mask [true, true]]) false = none :=
  claim_C8_amended (1/1000000000000) [T0] [rayHit0] [Cands.mask [true, true]]
    (Or.inl ⟨0, by decide, [true, true], rfl, by decide⟩)

/-- Counterexample to C8 as stated: the candidates array has a malformed
length-2 boolean mask for ray 1 (only 1 triangle), yet with
`return_any=true` the query hits at ray 0 and returns `True` instead of
failing fast. -/
theorem claim_C8_counterexample :
    rays_triangles_id (1/1000000000000) [T0] [rayHit0, rayHit0]
        (some [Cands.idx [0], Cands.mask [true, true]]) true = some (.anyHit true) ∧
      some (RaysRes.anyHit true) ≠ (none : Option RaysRes) :=
  ⟨by decide, by decide⟩

/-- C1: the spec scenario, evaluated.  The miss ray yields `[[]]` and an
explicit index-array candidate set yields `[[0]]`, but with NO candidate
set supplied the per-ray record is the numpy boolean `[True]` selected
out of the default boolean mask — not the triangle index list `[0]` the
docstring promises ("(m) sequence of triangle indexes"), exhibiting the
bug. -/
theorem claim_C1 :
    rays_triangles_id (1/1000000000000) [T0] [rayHit0] none false =
        some (.hits [[NPVal.nbool true]]) ∧
      rays_triangles_id (1/1000000000000) [T0] [rayMiss0] none false =
        some (.hits [[]]) ∧
      rays_triangles_id (1/1000000000000) [T0] [rayHit0] (some [.idx [0]]) false =
        some (.hits [[NPVal.nint 0]]) ∧
      RaysRes.hits [[NPVal.nbool true]] ≠ RaysRes.hits [[NPVal.nint 0]] :=
  ⟨by decide, by decide, by decide, by decide⟩

/-- The exact list of determinants the source divides by: `det[candidates]`
at the line `inv_det = 1.0 / det[candidates]`, reached after the
`np.abs(det) < TOL_ZERO` filter (named at top level so the
division-safety claim can speak about it). -/
def invDetInputs (O : Ops α) (TOL : α) (triangles : List (Tri α))
    (ray_direction : Vec3 α) : List α :=
  let candidates := List.replicate triangles.length true
  let vert0 := triangles.map fun t => t.v0
  let vert1 := triangles.map fun t => t.v1
  let vert2 := triangles.map fun t => t.v2
  let edge0 := List.zipWith (vsub O) vert1 vert0
  let edge1 := List.zipWith (vsub O) vert2 vert0
  let P := edge1.map fun e => cross O ray_direction e
  let det := diagDot O edge0 P
  let candidates1 :=
    List.zipWith (fun b m => if m then false else b) candidates
      (det.map fun d => O.absltB d TOL)
  compress candidates1 det

theorem invDetInputs_eq (O : Ops α) (TOL : α) (ts : List (Tri α)) (d : Vec3 α) :
    invDetInputs O TOL ts d =
      (ts.filter fun x => !(O.absltB (triDet O d x) TOL)).map (triDet O d) := by
  simp only [invDetInputs, diagDot]
  simp only [map_map_fun, zipWith_map_same, zipWith_replicate_map, compress_map_map,
    ifNotBool]
  simp only [triDet, triP, triE0, triE1]
  exact map_congr_mem _ _ _ fun x _ => rfl

/-- C10: every determinant the source feeds to `1.0 / det` already passed
the `|det| ≥ TOL_ZERO` filter, so with `TOL_ZERO > 0` no division by zero
(nor by a sub-tolerance determinant) occurs on any execution path. -/
theorem claim_C10 (TOL : ℚ) (ts : List (Tri ℚ)) (d : Vec3 ℚ) (htol : 0 < TOL) :
    ∀ x ∈ invDetInputs qOps TOL ts d, TOL ≤ |x| ∧ x ≠ 0 := by
  intro x hx
  rw [invDetInputs_eq] at hx
  obtain ⟨tri, htri, rfl⟩ := List.mem_map.mp hx
  have hfil := (List.mem_filter.mp htri).2
  have hge : TOL ≤ |triDet qOps d tri| := by
    simpa [qOps, not_lt] using hfil
  refine ⟨hge, fun h0 => ?_⟩
  rw [h0, abs_zero] at hge
  exact absurd htol (not_lt.mpr hge)

/-- Witness for C10: the scenario triangle's determinant list is `[1]`,
and the claim applies at `TOL_ZERO = 1/2`. -/
theorem claim_C10_witness : (1/2 : ℚ) ≤ |(1 : ℚ)| ∧ (1 : ℚ) ≠ 0 :=
  claim_C10 (1/2) [T0] ⟨0,0,-1⟩ (by decide) 1 (by decide)

/-! ### NaN-extended scalars (C9): `none` models an IEEE NaN -/

/-- NaN-propagating addition. -/
def nadd : Option ℚ → Option ℚ → Option ℚ
  | some a, some b => some (a + b)
  | _, _ => none

/-- NaN-propagating subtraction. -/
def nsub : Option ℚ → Option ℚ → Option ℚ
  | some a, some b => some (a - b)
  | _, _ => none

/-- NaN-propagating multiplication (IEEE: `NaN * x = NaN`, even for
`x = 0`). -/
def nmul : Option ℚ → Option ℚ → Option ℚ
  | some a, some b => some (a * b)
  | _, _ => none

/-- NaN-propagating division.  A zero divisor is also sent to the poison
value (IEEE would give `±Inf`; with `TOL_ZERO > 0` the code never divides
by an exact zero — see `claim_C10`). -/
def ndiv : Option ℚ → Option ℚ → Option ℚ
  | some a, some b => if b = 0 then none else some (a / b)
  | _, _ => none

/-- `a < b` with IEEE unordered semantics: any comparison with NaN is
false. -/
def nltB : Option ℚ → Option ℚ → Bool
  | some a, some b => decide (a < b)
  | _, _ => false

/-- `a > b` with IEEE unordered semantics. -/
def ngtB : Option ℚ → Option ℚ → Bool
  | some a, some b => decide (a > b)
  | _, _ => false

/-- `np.abs(a) < b` with IEEE unordered semantics (`abs NaN = NaN`). -/
def nabsltB : Option ℚ → Option ℚ → Bool
  | some a, some b => decide (|a| < b)
  | _, _ => false

/-- The NaN-extended scalar operations. -/
def nOps : Ops (Option ℚ) where
  add := nadd
  sub := nsub
  mul := nmul
  div := ndiv
  neg a := a.map fun x => -x
  one := some 1
  ltB := nltB
  gtB := ngtB
  absltB := nabsltB

/-- `ray_triangles` over the NaN-extended scalars. -/
def rayTrianglesNaN (TOL : Option ℚ) :
    List (Tri (Option ℚ)) → Vec3 (Option ℚ) → Vec3 (Option ℚ) → List Bool :=
  rayTrianglesG nOps TOL

theorem nmul_none_right (a : Option ℚ) : nmul a none = none := by cases a <;> rfl

theorem nmul_none_left (b : Option ℚ) : nmul none b = none := by cases b <;> rfl

theorem nsub_none_right (a : Option ℚ) : nsub a none = none := by cases a <;> rfl

theorem nsub_none_left (b : Option ℚ) : nsub none b = none := by cases b <;> rfl

theorem ndiv_none_right (a : Option ℚ) : ndiv a none = none := by cases a <;> rfl

theorem nmul_eq_none {a b : Option ℚ} : nmul a b = none ↔ a = none ∨ b = none := by
  cases a <;> cases b <;> simp [nmul]

theorem nadd_eq_none {a b : Option ℚ} : nadd a b = none ↔ a = none ∨ b = none := by
  cases a <;> cases b <;> simp [nadd]

theorem nsub_eq_none {a b : Option ℚ} : nsub a b = none ↔ a = none ∨ b = none := by
  cases a <;> cases b <;> simp [nsub]

theorem ndot_eq_none {a b : Vec3 (Option ℚ)} :
    dot nOps a b = none ↔
      (a.x = none ∨ b.x = none) ∨ (a.y = none ∨ b.y = none) ∨ (a.z = none ∨ b.z = none) := by
  simp [dot, nOps, nadd_eq_none, nmul_eq_none, or_assoc]

/-- NaN anywhere in the derived quantities `det, u, v, t` of a triangle
forces the final hit parameter `t` to be NaN. -/
theorem tNone_of_any (o d : Vec3 (Option ℚ)) (x : Tri (Option ℚ))
    (h : triDet nOps d x = none ∨ triU nOps o d x = none ∨ triV nOps o d x = none ∨
      triHitT nOps o d x = none) :
    triHitT nOps o d x = none := by
  have hInvT : triInv nOps d x = none → triHitT nOps o d x = none := by
    intro hni
    rw [triHitT, hni]
    show nmul (dot nOps (triE1 nOps x) (triQ nOps o x)) none = none
    exact nmul_none_right _
  have hDet : triDet nOps d x = none → triHitT nOps o d x = none := by
    intro hdn
    apply hInvT
    rw [triInv, hdn]
    show ndiv nOps.one none = none
    exact ndiv_none_right _
  have hQ : ((triQ nOps o x).x = none ∨ (triQ nOps o x).y = none ∨
      (triQ nOps o x).z = none) → triHitT nOps o d x = none := by
    intro hq
    have hdot : dot nOps (triE1 nOps x) (triQ nOps o x) = none := by
      rcases hq with h | h | h
      · exact ndot_eq_none.mpr (Or.inl (Or.inr h))
      · exact ndot_eq_none.mpr (Or.inr (Or.inl (Or.inr h)))
      · exact ndot_eq_none.mpr (Or.inr (Or.inr (Or.inr h)))
    rw [triHitT, hdot]
    show nmul none (triInv nOps d x) = none
    exact nmul_none_left _
  have hT : ((triT nOps o x).x = none ∨ (triT nOps o x).y = none ∨
      (triT nOps o x).z = none) → triHitT nOps o d x = none := by
    intro ht
    apply hQ
    have hQx : (triQ nOps o x).x =
        nsub (nmul (triT nOps o x).y (triE0 nOps x).z)
          (nmul (triT nOps o x).z (triE0 nOps x).y) := rfl
    have hQy : (triQ nOps o x).y =
        nsub (nmul (triT nOps o x).z (triE0 nOps x).x)
          (nmul (triT nOps o x).x (triE0 nOps x).z) := rfl
    have hQz : (triQ nOps o x).z =
        nsub (nmul (triT nOps o x).x (triE0 nOps x).y)
          (nmul (triT nOps o x).y (triE0 nOps x).x) := rfl
    rcases ht with h1 | h2 | h3
    · right; left
      rw [hQy, h1, nmul_none_left, nsub_none_right]
    · left
      rw [hQx, h2, nmul_none_left, nsub_none_left]
    · left
      rw [hQx, h3, nmul_none_left, nsub_none_right]
  have hP : ((triP nOps d x).x = none ∨ (triP nOps d x).y = none ∨
      (triP nOps d x).z = none) → triHitT nOps o d x = none := by
    intro hp
    apply hDet
    rw [triDet, ndot_eq_none]
    rcases hp with h | h | h
    · exact Or.inl (Or.inr h)
    · exact Or.inr (Or.inl (Or.inr h))
    · exact Or.inr (Or.inr (Or.inr h))
  have hd : (d.x = none ∨ d.y = none ∨ d.z = none) → triHitT nOps o d x = none := by
    intro hdc
    apply hP
    have hPx : (triP nOps d x).x =
        nsub (nmul d.y (triE1 nOps x).z) (nmul d.z (triE1 nOps x).y) := rfl
    have hPy : (triP nOps d x).y =
        nsub (nmul d.z (triE1 nOps x).x) (nmul d.x (triE1 nOps x).z) := rfl
    rcases hdc with h1 | h2 | h3
    · right; left
      rw [hPy, h1, nmul_none_left, nsub_none_right]
    · left
      rw [hPx, h2, nmul_none_left, nsub_none_left]
    · left
      rw [hPx, h3, nmul_none_left, nsub_none_right]
  rcases h with hdet | hu | hv | ht
  · exact hDet hdet
  · rw [triU] at hu
    have hu2 : nmul (dot nOps (triT nOps o x) (triP nOps d x)) (triInv nOps d x) =
        none := hu
    rcases nmul_eq_none.mp hu2 with hdot | hinv
    · rcases ndot_eq_none.mp hdot with (hc | hc) | (hc | hc) | (hc | hc)
      · exact hT (Or.inl hc)
      · exact hP (Or.inl hc)
      · exact hT (Or.inr (Or.inl hc))
      · exact hP (Or.inr (Or.inl hc))
      · exact hT (Or.inr (Or.inr hc))
      · exact hP (Or.inr (Or.inr hc))
    · exact hInvT hinv
  · rw [triV] at hv
    have hv2 : nmul (dot nOps d (triQ nOps o x)) (triInv nOps d x) = none := hv
    rcases nmul_eq_none.mp hv2 with hdot | hinv
    · rcases ndot_eq_none.mp hdot with (hc | hc) | (hc | hc) | (hc | hc)
      · exact hd (Or.inl hc)
      · exact hQ (Or.inl hc)
      · exact hd (Or.inr (Or.inl hc))
      · exact hQ (Or.inr (Or.inl hc))
      · exact hd (Or.inr (Or.inr hc))
      · exact hQ (Or.inr (Or.inr hc))
    · exact hInvT hinv
  · exact ht

/-- C9: over the NaN-extended scalars the intersector is total (it is a
Lean function) and every `TOL_ZERO` comparison treats NaN as failing, so
a triangle whose derived quantity `det`, `u`, `v` or `t` is NaN is never
reported as a hit: its mask entry is false. -/
theorem claim_C9 (TOL : Option ℚ) (ts : List (Tri (Option ℚ)))
    (o d : Vec3 (Option ℚ)) (i : ℕ) (hi : i < ts.length)
    (h : triDet nOps d ts[i] = none ∨ triU nOps o d ts[i] = none ∨
      triV nOps o d ts[i] = none ∨ triHitT nOps o d ts[i] = none) :
    (rayTrianglesNaN TOL ts o d).getD i false = false := by
  rw [rayTrianglesNaN, rayTrianglesG_eq_map, List.getD_eq_getElem?_getD,
    List.getElem?_map, List.getElem?_eq_getElem hi]
  have ht := tNone_of_any o d ts[i] h
  have hf4 : mtF4 nOps TOL o d ts[i] = false := by
    rw [mtF4, ht]
    cases TOL <;> rfl
  simp [mt6G, hf4]

/-- A scenario triangle whose first vertex has a NaN x-coordinate. -/
def TNaN : Tri (Option ℚ) :=
  ⟨⟨none, some 0, some 0⟩, ⟨some 1, some 0, some 0⟩, ⟨some 0, some 1, some 0⟩⟩

/-- Witness for C9: the NaN vertex makes `det` NaN, and the mask entry of
that triangle is false. -/
theorem claim_C9_witness :
    (rayTrianglesNaN (some (1/1000000000000)) [TNaN]
      ⟨some (1/4), some (1/4), some 1⟩ ⟨some 0, some 0, some (-1)⟩).getD 0 false = false :=
  claim_C9 (some (1/1000000000000)) [TNaN] ⟨some (1/4), some (1/4), some 1⟩
    ⟨some 0, some 0, some (-1)⟩ 0 (by decide) (Or.inl (by decide))
